import Mathlib

/-!
Verification of the eva-core execution-plan engine: the Plan/Step data model
(src/domain/plan.ts), the plan runner, and the Orchestrator wrapper
(src/runtime/orchestrator.ts), shallowly embedded in Lean.

Asynchronous actions are modelled as pure state-passing functions that either
return a Result or throw a JavaScript value; a rejected promise and a
synchronous throw are the same observable outcome for the awaited caller, so
both are one thrown channel (Except.error). Mutation of the shared context is
modelled by the action returning the updated context. Telemetry is modelled by
a trace of emitted events plus a behaviour map saying which calls throw.
-/

/-- JavaScript runtime values, as far as the engine inspects them: an object
exposing a message field and a cause field (the shape the runner wraps step
errors in, and the shape of an Error), a primitive string, or undefined. -/
inductive JsValue where
  | obj (message : String) (cause : JsValue)
  | str (s : String)
  | undef
  deriving DecidableEq, Repr

/-- The two-variant Result type of src/util/result.ts, with the error channel
restricted to the JavaScript values the engine actually stores there. -/
inductive Result (α : Type) where
  | ok (value : α)
  | err (error : JsValue)
  deriving DecidableEq, Repr

deriving instance DecidableEq for Except

/-- String(e) of JavaScript: how each modelled value converts to a string. -/
def jsToString : JsValue → String
  | JsValue.obj _ _ => "[object Object]"
  | JsValue.str s => s
  | JsValue.undef => "undefined"

/-- e?.message of JavaScript: the message field when the value exposes one. -/
def jsMessage : JsValue → Option String
  | JsValue.obj m _ => some m
  | JsValue.str _ => none
  | JsValue.undef => none

/-- The expression e?.message || String(e) in Orchestrator.run's catch block:
the message field when it is a non-empty (truthy) string, otherwise the
string conversion of the thrown value. -/
def normalizeThrown (e : JsValue) : String :=
  match jsMessage e with
  | some m => if m = "" then jsToString e else m
  | none => jsToString e

/-- The branded-identifier helper asPlanId of src/domain/ids.ts (the brand is
compile-time only, so at run time it is the identity on strings). -/
def asPlanId (s : String) : String := s

/-- The branded-identifier helper asStepId of src/domain/ids.ts. -/
def asStepId (s : String) : String := s

/-- StepContext of src/domain/plan.ts: a mutable mapping from variable name to
arbitrary value, shared by all steps of one run. -/
structure StepContext where
  vars : List (String × JsValue)
  deriving DecidableEq, Repr

/-- An action's value payload: the optional output field of the object the
action resolves with. -/
abbrev ActionValue := Option JsValue

/-- The outcome of calling a step action with a context: the context as the
action left it, and either the Result the promise resolved with (Except.ok)
or the value it threw or rejected with (Except.error). -/
abbrev ActionOutcome := StepContext × Except JsValue (Result ActionValue)

/-- Step of src/domain/plan.ts: id, name, action, optional gating predicate.
The predicate is typed as returning a boolean but, being a JavaScript
function, may also throw, hence the Except. -/
structure Step where
  id : String
  name : String
  action : StepContext → ActionOutcome
  when : Option (StepContext → Except JsValue Bool)

/-- Plan of src/domain/plan.ts. -/
structure Plan where
  id : String
  name : String
  steps : List Step

/-- A step specification as accepted by makePlan: a Step whose id may be
absent (null or undefined). -/
structure StepSpec where
  id : Option String
  name : String
  action : StepContext → ActionOutcome
  when : Option (StepContext → Except JsValue Bool)

/-- The step-normalizing map inside makePlan, carrying the running 0-based
index: a step missing an id gets asStepId of the plan name, "-s" and the
1-based index (the ?? nullish coalescing is Option.getD). -/
def numberSteps (name : String) : Nat → List StepSpec → List Step
  | _, [] => []
  | i, s :: rest =>
    { id := s.id.getD (asStepId (name ++ "-s" ++ Nat.repr (i + 1))),
      name := s.name, action := s.action, when := s.when } :: numberSteps name (i + 1) rest

/-- makePlan of src/domain/plan.ts. -/
def makePlan (name : String) (steps : List StepSpec) : Plan :=
  { id := asPlanId name, name := name, steps := numberSteps name 0 steps }

/-- One entry of the run summary: the id of a step and whether it succeeded
(or was skipped, which counts as success). -/
structure SummaryEntry where
  id : String
  ok : Bool
  deriving DecidableEq, Repr

/-- The value carried by a successful RunResult of src/domain/plan.ts. -/
abbrev RunResult := Result (List SummaryEntry)

/-- An item of the observable trace of one run: a telemetry call (message and
attributes) or the invocation of the action of the step at a 0-based
position. -/
inductive TelemetryAttr where
  | startAttr (planId : String) (name : String)
  | errorAttr (error : JsValue)
  | okAttr (steps : Nat)
  | exceptionAttr (error : String)
  deriving DecidableEq, Repr

/-- A telemetry call as recorded in the trace. -/
structure TelemetryEvent where
  msg : String
  attr : TelemetryAttr
  deriving DecidableEq, Repr

/-- One observable item of a run: a telemetry emission or an action
invocation (the step's 0-based position in the plan and its id). -/
inductive TraceItem where
  | tel (e : TelemetryEvent)
  | stepRun (i : Nat) (id : String)
  deriving DecidableEq, Repr

/-- How the loop body of runPlan left the run: fell off the end of the steps
with the final context, returned the wrapped failure Result, or had an
exception escape (thrown action, rejected promise, throwing predicate). -/
inductive RunOutcome where
  | completed (ctx : StepContext)
  | failed (error : JsValue)
  | thrown (e : JsValue)
  deriving DecidableEq, Repr

/-- Everything observable about executing a list of steps: the action
invocations, the summary entries pushed, and how the loop left. -/
structure RunOut where
  trace : List TraceItem
  summary : List SummaryEntry
  outcome : RunOutcome
  deriving DecidableEq, Repr

/-- The gate check: s.when && !s.when(ctx) of runPlan, as the value of the
predicate when present (true when absent), or the value it threw. -/
def stepGate (s : Step) (ctx : StepContext) : Except JsValue Bool :=
  match s.when with
  | some w => w ctx
  | none => Except.ok true

/-- The loop of runPlan over the remaining steps, from a given context and
0-based position: skip a gated-off step recording ok, invoke the action
otherwise, push the summary entry, and short-circuit on the first failing
Result with the wrapped error object. -/
def runSteps : List Step → StepContext → Nat → RunOut
  | [], ctx, _ => ⟨[], [], RunOutcome.completed ctx⟩
  | s :: rest, ctx, i =>
    match stepGate s ctx with
    | Except.error e => ⟨[], [], RunOutcome.thrown e⟩
    | Except.ok false =>
      let r := runSteps rest ctx (i + 1)
      ⟨r.trace, ⟨s.id, true⟩ :: r.summary, r.outcome⟩
    | Except.ok true =>
      match s.action ctx with
      | (_, Except.error e) => ⟨[TraceItem.stepRun i s.id], [], RunOutcome.thrown e⟩
      | (ctx2, Except.ok (Result.ok _)) =>
        let r := runSteps rest ctx2 (i + 1)
        ⟨TraceItem.stepRun i s.id :: r.trace, ⟨s.id, true⟩ :: r.summary, r.outcome⟩
      | (_, Except.ok (Result.err e)) =>
        ⟨[TraceItem.stepRun i s.id], [⟨s.id, false⟩],
          RunOutcome.failed (JsValue.obj ("Step failed: " ++ s.name) e)⟩

/-- The instrumented whole of runPlan of src/domain/plan.ts: fresh empty
context, loop from position 0. -/
def runPlanOut (plan : Plan) : RunOut :=
  runSteps plan.steps ⟨[]⟩ 0

/-- runPlan as the caller sees it: the Result it resolves with, or the value
its promise rejects with. On completion the success Result carries the
summary; on a step failure the failure Result carries the wrapped error. -/
def runPlan (plan : Plan) : Except JsValue RunResult :=
  match (runPlanOut plan).outcome with
  | RunOutcome.completed _ => Except.ok (Result.ok (runPlanOut plan).summary)
  | RunOutcome.failed e => Except.ok (Result.err e)
  | RunOutcome.thrown e => Except.error e

/-- A telemetry implementation, reduced to what the orchestrator can observe
of it: for each call (message and attributes), whether it returns normally
(none) or throws a value (some). -/
structure TelemetryModel where
  info : String → TelemetryAttr → Option JsValue
  error : String → TelemetryAttr → Option JsValue

/-- telemetry?.info(msg, attrs): elided when no telemetry is supplied,
otherwise the call is recorded and may throw. -/
def telInfo : Option TelemetryModel → String → TelemetryAttr → List TraceItem × Option JsValue
  | none, _, _ => ([], none)
  | some t, msg, attr => ([TraceItem.tel ⟨msg, attr⟩], t.info msg attr)

/-- telemetry?.error(msg, attrs): elided when no telemetry is supplied,
otherwise the call is recorded and may throw. -/
def telError : Option TelemetryModel → String → TelemetryAttr → List TraceItem × Option JsValue
  | none, _, _ => ([], none)
  | some t, msg, attr => ([TraceItem.tel ⟨msg, attr⟩], t.error msg attr)

/-- The try block of Orchestrator.run of src/runtime/orchestrator.ts: emit the
start event, delegate to the runner, then emit run.error and return the
failure unchanged, or emit run.ok and return a success with the same value.
Except.error is an exception escaping the try block (from the runner or from
a throwing telemetry call). -/
def Orchestrator.runTry (telemetry : Option TelemetryModel) (plan : Plan) :
    List TraceItem × Except JsValue RunResult :=
  let startCall := telInfo telemetry "orchestrator.run.start" (TelemetryAttr.startAttr plan.id plan.name)
  match startCall.2 with
  | some e => (startCall.1, Except.error e)
  | none =>
    let out := runPlanOut plan
    match out.outcome with
    | RunOutcome.thrown e => (startCall.1 ++ out.trace, Except.error e)
    | RunOutcome.failed errv =>
      let errCall := telError telemetry "orchestrator.run.error" (TelemetryAttr.errorAttr errv)
      match errCall.2 with
      | some e => (startCall.1 ++ out.trace ++ errCall.1, Except.error e)
      | none => (startCall.1 ++ out.trace ++ errCall.1, Except.ok (Result.err errv))
    | RunOutcome.completed _ =>
      let okCall := telInfo telemetry "orchestrator.run.ok" (TelemetryAttr.okAttr out.summary.length)
      match okCall.2 with
      | some e => (startCall.1 ++ out.trace ++ okCall.1, Except.error e)
      | none => (startCall.1 ++ out.trace ++ okCall.1, Except.ok (Result.ok out.summary))

/-- Orchestrator.run of src/runtime/orchestrator.ts: the try block, with its
catch block converting any escaped exception into err(e) after emitting the
run.exception event with the string-normalized message; an exception thrown
by that very telemetry call escapes run itself (Except.error). -/
def Orchestrator.run (telemetry : Option TelemetryModel) (plan : Plan) :
    List TraceItem × Except JsValue RunResult :=
  let tried := Orchestrator.runTry telemetry plan
  match tried.2 with
  | Except.ok r => (tried.1, Except.ok r)
  | Except.error e =>
    let excCall := telError telemetry "orchestrator.run.exception"
      (TelemetryAttr.exceptionAttr (normalizeThrown e))
    match excCall.2 with
    | some e2 => (tried.1 ++ excCall.1, Except.error e2)
    | none => (tried.1 ++ excCall.1, Except.ok (Result.err e))

/-! ### Decimal rendering: Nat.repr is injective

The auto-generated step ids embed the 1-based position through Nat.repr (the
decimal rendering a JavaScript template literal performs on a number). Ids of
distinct positions are distinct because decimal rendering is injective, which
we prove through an explicit decimal decoder. -/

/-- Decimal decoding of a character list, reading each character as a decimal
digit with value one less than its code point minus 47. Left inverse of the
decimal rendering on the lists it produces. -/
def decodeDigits : List Char → Nat
  | [] => 0
  | c :: cs => (c.toNat - 48) * 10 ^ cs.length + decodeDigits cs

theorem digitChar_toNat_of_lt : ∀ n, n < 10 → (Nat.digitChar n).toNat = 48 + n := by decide

theorem decodeDigits_toDigitsCore :
    ∀ (fuel n : Nat) (ds : List Char), n < fuel →
      decodeDigits (Nat.toDigitsCore 10 fuel n ds) = n * 10 ^ ds.length + decodeDigits ds := by
  intro fuel
  induction fuel with
  | zero => intro n ds h; omega
  | succ f ih =>
    intro n ds h
    by_cases hdiv : n / 10 = 0
    · have hn10 : n < 10 := by omega
      have : Nat.toDigitsCore 10 (f + 1) n ds = Nat.digitChar (n % 10) :: ds := by
        simp [Nat.toDigitsCore, hdiv]
      rw [this]
      have hmod : n % 10 = n := Nat.mod_eq_of_lt hn10
      simp [decodeDigits, hmod, digitChar_toNat_of_lt n hn10]
    · have hlt : n / 10 < f := by
        have h1 : 0 < n := by
          rcases Nat.eq_zero_or_pos n with h0 | h1
          · exact absurd (by simp [h0]) hdiv
          · exact h1
        have := Nat.div_lt_self h1 (by norm_num : 1 < 10)
        omega
      have : Nat.toDigitsCore 10 (f + 1) n ds =
          Nat.toDigitsCore 10 f (n / 10) (Nat.digitChar (n % 10) :: ds) := by
        simp [Nat.toDigitsCore, hdiv]
      rw [this, ih (n / 10) (Nat.digitChar (n % 10) :: ds) hlt]
      have hmod : n % 10 < 10 := Nat.mod_lt n (by norm_num)
      simp only [decodeDigits, List.length_cons, digitChar_toNat_of_lt _ hmod,
        Nat.add_sub_cancel_left, pow_succ]
      have hdm : 10 * (n / 10) + n % 10 = n := Nat.div_add_mod n 10
      calc n / 10 * (10 ^ ds.length * 10) + (n % 10 * 10 ^ ds.length + decodeDigits ds)
          = (10 * (n / 10) + n % 10) * 10 ^ ds.length + decodeDigits ds := by ring
        _ = n * 10 ^ ds.length + decodeDigits ds := by rw [hdm]

theorem decodeDigits_toDigits (n : Nat) : decodeDigits (Nat.toDigits 10 n) = n := by
  unfold Nat.toDigits
  rw [decodeDigits_toDigitsCore (n + 1) n [] (Nat.lt_succ_self n)]
  simp [decodeDigits]

theorem natRepr_injective : Function.Injective Nat.repr := by
  intro m n h
  have hdig : Nat.toDigits 10 m = Nat.toDigits 10 n := by
    have hdata := congrArg String.data h
    simpa [Nat.repr, List.asString] using hdata
  have hm := decodeDigits_toDigits m
  have hn := decodeDigits_toDigits n
  rw [← hm, ← hn, hdig]

/-! ### Properties of the runner loop -/

/-- A step whose gate, when present, always evaluates (to either boolean)
without throwing. -/
def gateNeverThrows (s : Step) : Prop :=
  ∀ ctx, ∃ b, stepGate s ctx = Except.ok b

/-- A step whose gate always lets it run: no predicate, or one returning
true. -/
def gateAlwaysTrue (s : Step) : Prop :=
  ∀ ctx, stepGate s ctx = Except.ok true

/-- A step whose action always resolves with a successful Result. -/
def actionAlwaysOk (s : Step) : Prop :=
  ∀ ctx, ∃ c v, s.action ctx = (c, Except.ok (Result.ok v))

/-- A step that can neither fail nor throw: its gate evaluates cleanly and
its action, when invoked, resolves successfully. -/
def stepNeverFails (s : Step) : Prop :=
  gateNeverThrows s ∧ actionAlwaysOk s

theorem runSteps_clean :
    ∀ (xs : List Step) (ctx : StepContext) (i : Nat), (∀ s ∈ xs, stepNeverFails s) →
      (runSteps xs ctx i).summary = xs.map (fun s => SummaryEntry.mk s.id true) ∧
      ∃ ctx2, (runSteps xs ctx i).outcome = RunOutcome.completed ctx2 := by
  intro xs
  induction xs with
  | nil => intro ctx i _; exact ⟨rfl, ctx, rfl⟩
  | cons s rest ih =>
    intro ctx i h
    obtain ⟨hgate, hact⟩ := h s (List.mem_cons_self s rest)
    have hrest : ∀ t ∈ rest, stepNeverFails t := fun t ht => h t (List.mem_cons_of_mem s ht)
    obtain ⟨b, hb⟩ := hgate ctx
    cases b with
    | false =>
      obtain ⟨hsum, ctx2, hout⟩ := ih ctx (i + 1) hrest
      simp [runSteps, hb, hsum, hout]
    | true =>
      obtain ⟨c, v, hc⟩ := hact ctx
      obtain ⟨hsum, ctx2, hout⟩ := ih c (i + 1) hrest
      simp [runSteps, hb, hc, hsum, hout]

theorem runSteps_trace_stepRun :
    ∀ (xs : List Step) (ctx : StepContext) (i : Nat), ∀ x ∈ (runSteps xs ctx i).trace,
      ∃ j sid, x = TraceItem.stepRun j sid ∧ i ≤ j ∧ j < i + xs.length := by
  intro xs
  induction xs with
  | nil => intro ctx i x hx; simp [runSteps] at hx
  | cons s rest ih =>
    intro ctx i x hx
    rcases hb : stepGate s ctx with e | b
    · simp [runSteps, hb] at hx
    · cases b with
      | false =>
        rw [show runSteps (s :: rest) ctx i =
            ⟨(runSteps rest ctx (i + 1)).trace, ⟨s.id, true⟩ :: (runSteps rest ctx (i + 1)).summary,
              (runSteps rest ctx (i + 1)).outcome⟩ from by simp [runSteps, hb]] at hx
        obtain ⟨j, sid, hj, h1, h2⟩ := ih ctx (i + 1) x hx
        exact ⟨j, sid, hj, by omega, by simp only [List.length_cons]; omega⟩
      | true =>
        rcases hc : s.action ctx with ⟨c, out⟩
        rcases out with e | r
        · simp [runSteps, hb, hc] at hx
          exact ⟨i, s.id, hx, le_refl i, by simp⟩
        · rcases r with v | e
          · rw [show runSteps (s :: rest) ctx i =
                ⟨TraceItem.stepRun i s.id :: (runSteps rest c (i + 1)).trace,
                  ⟨s.id, true⟩ :: (runSteps rest c (i + 1)).summary,
                  (runSteps rest c (i + 1)).outcome⟩ from by simp [runSteps, hb, hc]] at hx
            rcases List.mem_cons.mp hx with h0 | h0
            · exact ⟨i, s.id, h0, le_refl i, by simp⟩
            · obtain ⟨j, sid, hj, h1, h2⟩ := ih c (i + 1) x h0
              exact ⟨j, sid, hj, by omega, by simp only [List.length_cons]; omega⟩
          · simp [runSteps, hb, hc] at hx
            exact ⟨i, s.id, hx, le_refl i, by simp⟩

theorem runSteps_append_completed :
    ∀ (xs ys : List Step) (ctx ctx2 : StepContext) (i : Nat),
      (runSteps xs ctx i).outcome = RunOutcome.completed ctx2 →
      runSteps (xs ++ ys) ctx i =
        ⟨(runSteps xs ctx i).trace ++ (runSteps ys ctx2 (i + xs.length)).trace,
          (runSteps xs ctx i).summary ++ (runSteps ys ctx2 (i + xs.length)).summary,
          (runSteps ys ctx2 (i + xs.length)).outcome⟩ := by
  intro xs
  induction xs with
  | nil =>
    intro ys ctx ctx2 i h
    have hc : ctx2 = ctx := by
      simpa [runSteps] using h.symm
    subst hc
    simp [runSteps]
  | cons s rest ih =>
    intro ys ctx ctx2 i h
    rcases hb : stepGate s ctx with e | b
    · rw [show (runSteps (s :: rest) ctx i).outcome = RunOutcome.thrown e from by
        simp [runSteps, hb]] at h
      exact absurd h (by simp)
    · cases b with
      | false =>
        have hout : (runSteps rest ctx (i + 1)).outcome = RunOutcome.completed ctx2 := by
          rw [show (runSteps (s :: rest) ctx i).outcome = (runSteps rest ctx (i + 1)).outcome
            from by simp [runSteps, hb]] at h
          exact h
        have := ih ys ctx ctx2 (i + 1) hout
        simp only [List.cons_append, List.length_cons]
        rw [show runSteps (s :: (rest ++ ys)) ctx i =
            ⟨(runSteps (rest ++ ys) ctx (i + 1)).trace,
              ⟨s.id, true⟩ :: (runSteps (rest ++ ys) ctx (i + 1)).summary,
              (runSteps (rest ++ ys) ctx (i + 1)).outcome⟩ from by simp [runSteps, hb]]
        rw [this]
        rw [show runSteps (s :: rest) ctx i =
            ⟨(runSteps rest ctx (i + 1)).trace, ⟨s.id, true⟩ :: (runSteps rest ctx (i + 1)).summary,
              (runSteps rest ctx (i + 1)).outcome⟩ from by simp [runSteps, hb]]
        simp [Nat.add_comm, Nat.add_assoc, Nat.add_left_comm]
      | true =>
        rcases hc : s.action ctx with ⟨c, out⟩
        rcases out with e | r
        · rw [show (runSteps (s :: rest) ctx i).outcome = RunOutcome.thrown e from by
            simp [runSteps, hb, hc]] at h
          exact absurd h (by simp)
        · rcases r with v | e
          · have hout : (runSteps rest c (i + 1)).outcome = RunOutcome.completed ctx2 := by
              rw [show (runSteps (s :: rest) ctx i).outcome = (runSteps rest c (i + 1)).outcome
                from by simp [runSteps, hb, hc]] at h
              exact h
            have := ih ys c ctx2 (i + 1) hout
            simp only [List.cons_append, List.length_cons]
            rw [show runSteps (s :: (rest ++ ys)) ctx i =
                ⟨TraceItem.stepRun i s.id :: (runSteps (rest ++ ys) c (i + 1)).trace,
                  ⟨s.id, true⟩ :: (runSteps (rest ++ ys) c (i + 1)).summary,
                  (runSteps (rest ++ ys) c (i + 1)).outcome⟩ from by simp [runSteps, hb, hc]]
            rw [this]
            rw [show runSteps (s :: rest) ctx i =
                ⟨TraceItem.stepRun i s.id :: (runSteps rest c (i + 1)).trace,
                  ⟨s.id, true⟩ :: (runSteps rest c (i + 1)).summary,
                  (runSteps rest c (i + 1)).outcome⟩ from by simp [runSteps, hb, hc]]
            simp [Nat.add_comm, Nat.add_assoc, Nat.add_left_comm]
          · rw [show (runSteps (s :: rest) ctx i).outcome =
                RunOutcome.failed (JsValue.obj ("Step failed: " ++ s.name) e) from by
              simp [runSteps, hb, hc]] at h
            exact absurd h (by simp)

/-! ### Properties of plan construction -/

theorem numberSteps_getElem? (name : String) :
    ∀ (specs : List StepSpec) (i k : Nat),
      (numberSteps name i specs)[k]? =
        (specs[k]?).map (fun s =>
          { id := s.id.getD (name ++ "-s" ++ Nat.repr (i + k + 1)), name := s.name,
            action := s.action, when := s.when }) := by
  intro specs
  induction specs with
  | nil => intro i k; simp [numberSteps]
  | cons s rest ih =>
    intro i k
    cases k with
    | zero => simp [numberSteps, asStepId]
    | succ k =>
      simp only [numberSteps, List.getElem?_cons_succ, ih (i + 1) k]
      have harith : i + 1 + k + 1 = i + (k + 1) + 1 := by omega
      rw [harith]

theorem numberSteps_length (name : String) :
    ∀ (specs : List StepSpec) (i : Nat), (numberSteps name i specs).length = specs.length := by
  intro specs
  induction specs with
  | nil => intro i; rfl
  | cons s rest ih => intro i; simp [numberSteps, ih]

/-! ### Concrete steps, plans and telemetries used to instantiate theorems -/

/-- A step action that resolves successfully with no output. -/
def okAction : StepContext → ActionOutcome := fun c => (c, Except.ok (Result.ok none))

/-- A step action that resolves with a failing Result carrying the string x. -/
def failAction : StepContext → ActionOutcome :=
  fun c => (c, Except.ok (Result.err (JsValue.str "x")))

/-- A step action that throws the given value. -/
def throwAction (v : JsValue) : StepContext → ActionOutcome := fun c => (c, Except.error v)

/-- A gating predicate that always evaluates to false. -/
def falseGate : StepContext → Except JsValue Bool := fun _ => Except.ok false

def stepA : Step := ⟨"p-s1", "a", okAction, none⟩

def stepB : Step := ⟨"p-s2", "b", okAction, none⟩

def stepFailB : Step := ⟨"p-s2", "b", failAction, none⟩

def planOneOk : Plan := ⟨"p", "p", [stepA]⟩

def planThrow (v : JsValue) : Plan := ⟨"p", "p", [⟨"p-s1", "t", throwAction v, none⟩]⟩

/-- A telemetry whose calls all return normally (a recording mock). -/
def recTel : TelemetryModel := ⟨fun _ _ => none, fun _ _ => none⟩

/-- A telemetry whose info calls throw. -/
def badTel : TelemetryModel := ⟨fun _ _ => some (JsValue.str "boom"), fun _ _ => none⟩

/-! ### The runner claims -/

/-- C2: for every plan with N steps in which no step action returns a failing
Result and no step is gated off, runPlan returns a success Result whose
summary has exactly N entries, of the form id with ok true each, in the order
of Plan.steps. -/
theorem runPlan_allOk (pid pname : String) (steps : List Step)
    (h : ∀ s ∈ steps, gateAlwaysTrue s ∧ actionAlwaysOk s) :
    runPlan ⟨pid, pname, steps⟩ =
      Except.ok (Result.ok (steps.map (fun s => SummaryEntry.mk s.id true))) := by
  have hnf : ∀ s ∈ steps, stepNeverFails s := fun s hs =>
    ⟨fun ctx => ⟨true, (h s hs).1 ctx⟩, (h s hs).2⟩
  obtain ⟨hsum, ctx2, hout⟩ := runSteps_clean steps ⟨[]⟩ 0 hnf
  simp [runPlan, runPlanOut, hout, hsum]

theorem runPlan_allOk_witness :
    (∀ s ∈ [stepA, stepB], gateAlwaysTrue s ∧ actionAlwaysOk s) ∧
    runPlan ⟨"p", "p", [stepA, stepB]⟩ =
      Except.ok (Result.ok [⟨"p-s1", true⟩, ⟨"p-s2", true⟩]) := by
  have hyp : ∀ s ∈ [stepA, stepB], gateAlwaysTrue s ∧ actionAlwaysOk s := by
    intro s hs
    simp only [List.mem_cons, List.not_mem_nil, or_false] at hs
    rcases hs with h | h <;> subst h <;>
      exact ⟨fun ctx => rfl, fun ctx => ⟨ctx, none, rfl⟩⟩
  refine ⟨hyp, ?_⟩
  have := runPlan_allOk "p" "p" [stepA, stepB] hyp
  simpa [stepA, stepB] using this

/-- C1: for every plan in which step k (1-indexed) is the first step whose
action returns a failing Result (the steps before it neither fail nor throw,
the failing step is not gated off), runPlan stops immediately: the returned
Result is a failure whose error carries the message "Step failed: " followed
by the step's name with the step's original error as wrapped cause, the
summary contains exactly k entries (entries k+1..N absent), and the actions
of steps k+1..N are never invoked (every invocation in the trace is at a
0-based position below k). -/
theorem runPlan_firstFailure (pid pname : String) (pre : List Step) (sk : Step)
    (post : List Step) (e : JsValue)
    (hpre : ∀ s ∈ pre, stepNeverFails s)
    (hgate : gateAlwaysTrue sk)
    (hfail : ∀ ctx, ∃ c, sk.action ctx = (c, Except.ok (Result.err e))) :
    runPlan ⟨pid, pname, pre ++ sk :: post⟩ =
      Except.ok (Result.err (JsValue.obj ("Step failed: " ++ sk.name) e)) ∧
    (runPlanOut ⟨pid, pname, pre ++ sk :: post⟩).summary =
      pre.map (fun s => SummaryEntry.mk s.id true) ++ [⟨sk.id, false⟩] ∧
    (runPlanOut ⟨pid, pname, pre ++ sk :: post⟩).summary.length = pre.length + 1 ∧
    ∀ x ∈ (runPlanOut ⟨pid, pname, pre ++ sk :: post⟩).trace,
      ∀ j sid, x = TraceItem.stepRun j sid → j < pre.length + 1 := by
  obtain ⟨hsum, ctx2, hout⟩ := runSteps_clean pre ⟨[]⟩ 0 hpre
  obtain ⟨c, hc⟩ := hfail ctx2
  have hsk : runSteps (sk :: post) ctx2 (0 + pre.length) =
      ⟨[TraceItem.stepRun (0 + pre.length) sk.id], [⟨sk.id, false⟩],
        RunOutcome.failed (JsValue.obj ("Step failed: " ++ sk.name) e)⟩ := by
    simp [runSteps, hgate ctx2, hc]
  have happ := runSteps_append_completed pre (sk :: post) ⟨[]⟩ ctx2 0 hout
  rw [hsk] at happ
  have hrpo : runPlanOut ⟨pid, pname, pre ++ sk :: post⟩ =
      ⟨(runSteps pre ⟨[]⟩ 0).trace ++ [TraceItem.stepRun (0 + pre.length) sk.id],
        (runSteps pre ⟨[]⟩ 0).summary ++ [⟨sk.id, false⟩],
        RunOutcome.failed (JsValue.obj ("Step failed: " ++ sk.name) e)⟩ := by
    simpa [runPlanOut] using happ
  refine ⟨?_, ?_, ?_, ?_⟩
  · simp [runPlan, hrpo]
  · rw [hrpo]
    simp [hsum]
  · rw [hrpo]
    simp [hsum]
  · intro x hx j sid hxeq
    rw [hrpo] at hx
    simp only at hx
    rcases List.mem_append.mp hx with h0 | h0
    · obtain ⟨j2, sid2, hj2, hle, hlt⟩ := runSteps_trace_stepRun pre ⟨[]⟩ 0 x h0
      rw [hxeq] at hj2
      injection hj2 with hj hsid
      omega
    · rw [hxeq] at h0
      simp only [List.mem_singleton] at h0
      injection h0 with hj hsid
      omega

theorem runPlan_firstFailure_witness :
    (∀ s ∈ [stepA], stepNeverFails s) ∧ gateAlwaysTrue stepFailB ∧
    (∀ ctx, ∃ c, stepFailB.action ctx = (c, Except.ok (Result.err (JsValue.str "x")))) ∧
    runPlan ⟨"p", "p", [stepA] ++ stepFailB :: [stepB]⟩ =
      Except.ok (Result.err (JsValue.obj "Step failed: b" (JsValue.str "x"))) ∧
    (runPlanOut ⟨"p", "p", [stepA] ++ stepFailB :: [stepB]⟩).summary =
      [⟨"p-s1", true⟩, ⟨"p-s2", false⟩] := by
  have h1 : ∀ s ∈ [stepA], stepNeverFails s := by
    intro s hs
    simp only [List.mem_singleton] at hs
    subst hs
    exact ⟨fun ctx => ⟨true, rfl⟩, fun ctx => ⟨ctx, none, rfl⟩⟩
  have h2 : gateAlwaysTrue stepFailB := fun ctx => rfl
  have h3 : ∀ ctx, ∃ c, stepFailB.action ctx = (c, Except.ok (Result.err (JsValue.str "x"))) :=
    fun ctx => ⟨ctx, rfl⟩
  have hmain := runPlan_firstFailure "p" "p" [stepA] stepFailB [stepB] (JsValue.str "x") h1 h2 h3
  exact ⟨h1, h2, h3, by simpa [stepFailB] using hmain.1, by simpa [stepA, stepFailB] using hmain.2.1⟩

/-- C6: for every step whose when predicate evaluates to false in the current
context, the runner loop records the summary entry with the step's id and ok
true, never invokes the step's action (no invocation at its position appears
in the trace), leaves the shared StepContext unchanged for the remaining
steps, and proceeds to the next step. -/
theorem runSteps_whenFalse_skips (s : Step) (rest : List Step) (ctx : StepContext) (i : Nat)
    (w : StepContext → Except JsValue Bool) (hw : s.when = some w)
    (hfalse : w ctx = Except.ok false) :
    runSteps (s :: rest) ctx i =
      ⟨(runSteps rest ctx (i + 1)).trace, ⟨s.id, true⟩ :: (runSteps rest ctx (i + 1)).summary,
        (runSteps rest ctx (i + 1)).outcome⟩ ∧
    ∀ sid, TraceItem.stepRun i sid ∉ (runSteps (s :: rest) ctx i).trace := by
  have hg : stepGate s ctx = Except.ok false := by simp [stepGate, hw, hfalse]
  constructor
  · simp [runSteps, hg]
  · intro sid hmem
    rw [show (runSteps (s :: rest) ctx i).trace = (runSteps rest ctx (i + 1)).trace from by
      simp [runSteps, hg]] at hmem
    obtain ⟨j, sid2, hj, h1, h2⟩ := runSteps_trace_stepRun rest ctx (i + 1) _ hmem
    injection hj with hij hsid
    omega

/-- A step gated off by a predicate that always returns false, used to
instantiate the skipping theorem. -/
def stepGatedA : Step := ⟨"p-s1", "a", okAction, some falseGate⟩

theorem runSteps_whenFalse_skips_witness :
    stepGatedA.when = some falseGate ∧ falseGate ⟨[]⟩ = Except.ok false ∧
    runSteps [stepGatedA, stepB] ⟨[]⟩ 0 =
      ⟨(runSteps [stepB] ⟨[]⟩ 1).trace, ⟨"p-s1", true⟩ :: (runSteps [stepB] ⟨[]⟩ 1).summary,
        (runSteps [stepB] ⟨[]⟩ 1).outcome⟩ ∧
    ∀ sid, TraceItem.stepRun 0 sid ∉ (runSteps [stepGatedA, stepB] ⟨[]⟩ 0).trace := by
  have hmain := runSteps_whenFalse_skips stepGatedA [stepB] ⟨[]⟩ 0 falseGate rfl rfl
  exact ⟨rfl, rfl, by simpa [stepGatedA] using hmain.1, hmain.2⟩

/-- C7: for every name and sequence of step specifications, makePlan returns
a Plan whose id equals the name verbatim, whose steps preserve the input
order exactly (position by position), whose step entries copy name, action
and when verbatim, and in which a step supplied without an id gets the id
built from the plan name, "-s" and its 1-based index, while supplied ids are
kept (the getD in the conclusion). -/
theorem makePlan_spec (name : String) (specs : List StepSpec) :
    (makePlan name specs).id = name ∧
    (makePlan name specs).name = name ∧
    (makePlan name specs).steps.length = specs.length ∧
    ∀ k : Nat, (makePlan name specs).steps[k]? =
      (specs[k]?).map (fun s =>
        { id := s.id.getD (name ++ "-s" ++ Nat.repr (k + 1)), name := s.name,
          action := s.action, when := s.when }) := by
  refine ⟨rfl, rfl, numberSteps_length name specs 0, fun k => ?_⟩
  have h := numberSteps_getElem? name specs 0 k
  simpa [makePlan] using h

theorem autoId_inj (name : String) (j k : Nat)
    (h : name ++ "-s" ++ Nat.repr (j + 1) = name ++ "-s" ++ Nat.repr (k + 1)) : j = k := by
  have hdata := congrArg String.data h
  simp only [String.data_append, List.append_assoc] at hdata
  have hrep : (Nat.repr (j + 1)).data = (Nat.repr (k + 1)).data :=
    List.append_cancel_left (List.append_cancel_left hdata)
  have hr : Nat.repr (j + 1) = Nat.repr (k + 1) := String.ext hrep
  have := natRepr_injective hr
  omega

/-- C10: makePlan replaces a step's id only when the supplied id is nullish
(absent), not merely falsy: a supplied id, the empty string included, is kept
verbatim; and when every step of the input lacks an id the generated ids,
determined by the plan name and the 1-based position alone, are pairwise
distinct. -/
theorem makePlan_id_nullish_and_distinct (name : String) (specs : List StepSpec) :
    (∀ (k : Nat) (s : StepSpec) (idv : String), specs[k]? = some s → s.id = some idv →
      ((makePlan name specs).steps[k]?).map Step.id = some idv) ∧
    ((∀ s ∈ specs, s.id = none) →
      ∀ j k : Nat, j < specs.length → k < specs.length → j ≠ k →
        ((makePlan name specs).steps[j]?).map Step.id ≠
          ((makePlan name specs).steps[k]?).map Step.id) := by
  have hget : ∀ k : Nat, (makePlan name specs).steps[k]? =
      (specs[k]?).map (fun s =>
        { id := s.id.getD (name ++ "-s" ++ Nat.repr (k + 1)), name := s.name,
          action := s.action, when := s.when }) := by
    intro k
    have h := numberSteps_getElem? name specs 0 k
    simpa [makePlan] using h
  constructor
  · intro k s idv hk hid
    rw [hget k, hk]
    simp [hid]
  · intro hnone j k hj hk hne
    obtain ⟨sj, hsj⟩ : ∃ sj, specs[j]? = some sj := by
      rw [List.getElem?_eq_getElem hj]
      exact ⟨_, rfl⟩
    obtain ⟨sk, hsk⟩ : ∃ sk, specs[k]? = some sk := by
      rw [List.getElem?_eq_getElem hk]
      exact ⟨_, rfl⟩
    have hjid : sj.id = none := hnone sj (List.getElem?_mem hsj)
    have hkid : sk.id = none := hnone sk (List.getElem?_mem hsk)
    rw [hget j, hget k, hsj, hsk]
    simp only [Option.map_some']
    intro hcontra
    injection hcontra with hcontra
    rw [hjid, hkid] at hcontra
    simp only [Option.getD_none] at hcontra
    exact hne (autoId_inj name j k hcontra)

/-! ### The orchestrator claims -/

/-- Telemetry absent, or present with every call returning normally (the
contract of the Telemetry interface, whose methods return void). -/
def telNeverThrows : Option TelemetryModel → Prop
  | none => True
  | some t => ∀ msg attr, t.info msg attr = none ∧ t.error msg attr = none

/-- C9: for every plan, with no telemetry supplied, Orchestrator.run never
throws and its promise never rejects: it always resolves to a Result, even
when step actions or gating predicates throw arbitrary values. -/
theorem orchRun_noTelemetry_total (plan : Plan) :
    ∃ r, (Orchestrator.run none plan).2 = Except.ok r := by
  rcases hout : (runPlanOut plan).outcome with ctx2 | e | e <;>
    simp [Orchestrator.run, Orchestrator.runTry, telInfo, telError, hout]

/-- C5: for every plan for which runPlan resolves without throwing, and any
telemetry obeying its non-throwing contract (or none), Orchestrator.run
returns the runner's Result unchanged: failures are not wrapped and
successes carry the same value; the orchestrator never turns a runner
failure into a success or a runner success into a failure. -/
theorem orchRun_returns_runner_result (tel : Option TelemetryModel) (plan : Plan)
    (r : RunResult) (hr : runPlan plan = Except.ok r) (htel : telNeverThrows tel) :
    (Orchestrator.run tel plan).2 = Except.ok r := by
  rcases hout : (runPlanOut plan).outcome with ctx2 | e | e
  · have hrr : r = Result.ok (runPlanOut plan).summary := by
      rw [runPlan, hout] at hr
      exact (Except.ok.inj hr).symm
    cases tel with
    | none => simp [Orchestrator.run, Orchestrator.runTry, telInfo, telError, hout, hrr]
    | some t =>
      have hi : ∀ m a, t.info m a = none := fun m a => (htel m a).1
      have he : ∀ m a, t.error m a = none := fun m a => (htel m a).2
      simp [Orchestrator.run, Orchestrator.runTry, telInfo, telError, hout, hrr, hi, he]
  · have hrr : r = Result.err e := by
      rw [runPlan, hout] at hr
      exact (Except.ok.inj hr).symm
    cases tel with
    | none => simp [Orchestrator.run, Orchestrator.runTry, telInfo, telError, hout, hrr]
    | some t =>
      have hi : ∀ m a, t.info m a = none := fun m a => (htel m a).1
      have he : ∀ m a, t.error m a = none := fun m a => (htel m a).2
      simp [Orchestrator.run, Orchestrator.runTry, telInfo, telError, hout, hrr, hi, he]
  · rw [runPlan, hout] at hr
    exact absurd hr (by simp)

theorem orchRun_returns_runner_result_witness :
    runPlan planOneOk = Except.ok (Result.ok [⟨"p-s1", true⟩]) ∧
    telNeverThrows (some recTel) ∧
    (Orchestrator.run (some recTel) planOneOk).2 = Except.ok (Result.ok [⟨"p-s1", true⟩]) := by
  have hr : runPlan planOneOk = Except.ok (Result.ok [⟨"p-s1", true⟩]) := by decide
  have htel : telNeverThrows (some recTel) := by
    unfold telNeverThrows
    intro msg attr
    exact ⟨rfl, rfl⟩
  exact ⟨hr, htel, orchRun_returns_runner_result (some recTel) planOneOk _ hr htel⟩

/-- C3 (amended): for every plan, the Result returned by Orchestrator.run
does not depend on the telemetry collaborator as long as every telemetry
call returns normally: no telemetry, or any non-throwing implementation,
yields the same returned Result, only the side-channel telemetry trace
differs. (A telemetry whose methods throw can change the Result, see the
counterexample.) -/
theorem orchRun_result_independent_of_telemetry (tel : Option TelemetryModel) (plan : Plan)
    (htel : telNeverThrows tel) :
    (Orchestrator.run tel plan).2 = (Orchestrator.run none plan).2 := by
  cases tel with
  | none => rfl
  | some t =>
    have hi : ∀ m a, t.info m a = none := fun m a => (htel m a).1
    have he : ∀ m a, t.error m a = none := fun m a => (htel m a).2
    rcases hout : (runPlanOut plan).outcome with ctx2 | e | e <;>
      simp [Orchestrator.run, Orchestrator.runTry, telInfo, telError, hout, hi, he]

theorem orchRun_result_independent_of_telemetry_witness :
    telNeverThrows (some recTel) ∧
    (Orchestrator.run (some recTel) planOneOk).2 = (Orchestrator.run none planOneOk).2 := by
  have htel : telNeverThrows (some recTel) := by
    unfold telNeverThrows
    intro msg attr
    exact ⟨rfl, rfl⟩
  exact ⟨htel, orchRun_result_independent_of_telemetry (some recTel) planOneOk htel⟩

/-- C3 counterexample: a telemetry whose info method throws changes the
returned Result. On a one-step always-succeeding plan, running with no
telemetry returns success, while running with the throwing telemetry returns
a failure (the thrown value is caught by the catch block and wrapped in
err), refuting the claim that a telemetry whose methods throw always yields
the same returned Result. -/
theorem orchRun_throwingTelemetry_changes_result :
    (Orchestrator.run (some badTel) planOneOk).2 ≠ (Orchestrator.run none planOneOk).2 := by
  decide

/-- C4 (amended): for every plan in which the runner throws (a step action or
gating predicate throwing or rejecting instead of returning a Result), with a
non-throwing telemetry supplied, Orchestrator.run catches the escaped value,
emits the orchestrator.run.exception event carrying the message field when
the thrown value exposes a non-empty one and otherwise its string
conversion, and returns a failure Result whose error is the original thrown
value; a thrown non-Error string yields the string itself as the
message-equivalent, which is non-empty exactly when the string is. -/
theorem orchRun_exception_normalizes (t : TelemetryModel) (plan : Plan) (e : JsValue)
    (htel : ∀ m a, t.info m a = none ∧ t.error m a = none)
    (hthrow : (runPlanOut plan).outcome = RunOutcome.thrown e) :
    (Orchestrator.run (some t) plan).2 = Except.ok (Result.err e) ∧
    TraceItem.tel ⟨"orchestrator.run.exception",
      TelemetryAttr.exceptionAttr (normalizeThrown e)⟩ ∈ (Orchestrator.run (some t) plan).1 ∧
    (∀ s, e = JsValue.str s → normalizeThrown e = s) := by
  have hi : ∀ m a, t.info m a = none := fun m a => (htel m a).1
  have he : ∀ m a, t.error m a = none := fun m a => (htel m a).2
  refine ⟨?_, ?_, ?_⟩
  · simp [Orchestrator.run, Orchestrator.runTry, telInfo, telError, hthrow, hi, he]
  · simp [Orchestrator.run, Orchestrator.runTry, telInfo, telError, hthrow, hi, he]
  · intro s hs
    subst hs
    rfl

/-- A plan whose single step action throws the string boom. -/
def planThrowBoom : Plan := planThrow (JsValue.str "boom")

theorem orchRun_exception_normalizes_witness :
    (∀ m a, recTel.info m a = none ∧ recTel.error m a = none) ∧
    (runPlanOut planThrowBoom).outcome = RunOutcome.thrown (JsValue.str "boom") ∧
    (Orchestrator.run (some recTel) planThrowBoom).2 =
      Except.ok (Result.err (JsValue.str "boom")) ∧
    TraceItem.tel ⟨"orchestrator.run.exception",
      TelemetryAttr.exceptionAttr (normalizeThrown (JsValue.str "boom"))⟩ ∈
        (Orchestrator.run (some recTel) planThrowBoom).1 := by
  have htel : ∀ m a, recTel.info m a = none ∧ recTel.error m a = none :=
    fun m a => ⟨rfl, rfl⟩
  have hthrow : (runPlanOut planThrowBoom).outcome = RunOutcome.thrown (JsValue.str "boom") := by
    decide
  have hmain := orchRun_exception_normalizes recTel planThrowBoom (JsValue.str "boom") htel hthrow
  exact ⟨htel, hthrow, hmain.1, hmain.2.1⟩

/-- C4 counterexample: a step action that throws the empty string. The run
does return a failure Result wrapping the thrown value, but the
orchestrator.run.exception event carries the empty string as its
message-equivalent (the e?.message || String(e) normalization of the thrown
empty string is empty), refuting the claim that a thrown non-Error string
always yields a non-empty error-message-equivalent. -/
theorem orchRun_emptyStringThrow_emptyMessage :
    (Orchestrator.run (some recTel) (planThrow (JsValue.str ""))).2 =
      Except.ok (Result.err (JsValue.str "")) ∧
    (Orchestrator.run (some recTel) (planThrow (JsValue.str ""))).1 =
      [TraceItem.tel ⟨"orchestrator.run.start", TelemetryAttr.startAttr "p" "p"⟩,
        TraceItem.stepRun 0 "p-s1",
        TraceItem.tel ⟨"orchestrator.run.exception", TelemetryAttr.exceptionAttr ""⟩] ∧
    normalizeThrown (JsValue.str "") = "" := by
  refine ⟨by decide, by decide, rfl⟩

/-- C8: for every run of Orchestrator.run with a (non-throwing) telemetry
supplied, the trace begins with the orchestrator.run.start event emitted
before any step executes, and thereafter exactly one of orchestrator.run.ok,
orchestrator.run.error or orchestrator.run.exception is emitted, after the
last executed step and before the Result is returned: the trace is the start
event, then action invocations only, then the one final event. -/
theorem orchRun_telemetry_order (t : TelemetryModel) (plan : Plan)
    (htel : ∀ m a, t.info m a = none ∧ t.error m a = none) :
    ∃ (sattr : TelemetryAttr) (mid : List TraceItem) (lastEv : TelemetryEvent),
      (Orchestrator.run (some t) plan).1 =
        TraceItem.tel ⟨"orchestrator.run.start", sattr⟩ :: (mid ++ [TraceItem.tel lastEv]) ∧
      (∀ x ∈ mid, ∃ j sid, x = TraceItem.stepRun j sid) ∧
      (lastEv.msg = "orchestrator.run.ok" ∨ lastEv.msg = "orchestrator.run.error" ∨
        lastEv.msg = "orchestrator.run.exception") := by
  have hi : ∀ m a, t.info m a = none := fun m a => (htel m a).1
  have he : ∀ m a, t.error m a = none := fun m a => (htel m a).2
  have hmid : ∀ x ∈ (runPlanOut plan).trace, ∃ j sid, x = TraceItem.stepRun j sid := by
    intro x hx
    obtain ⟨j, sid, hj, _, _⟩ := runSteps_trace_stepRun plan.steps ⟨[]⟩ 0 x hx
    exact ⟨j, sid, hj⟩
  rcases hout : (runPlanOut plan).outcome with ctx2 | e | e
  · refine ⟨TelemetryAttr.startAttr plan.id plan.name, (runPlanOut plan).trace,
      ⟨"orchestrator.run.ok", TelemetryAttr.okAttr (runPlanOut plan).summary.length⟩,
      ?_, hmid, by simp⟩
    simp [Orchestrator.run, Orchestrator.runTry, telInfo, telError, hout, hi, he]
  · refine ⟨TelemetryAttr.startAttr plan.id plan.name, (runPlanOut plan).trace,
      ⟨"orchestrator.run.error", TelemetryAttr.errorAttr e⟩, ?_, hmid, by simp⟩
    simp [Orchestrator.run, Orchestrator.runTry, telInfo, telError, hout, hi, he]
  · refine ⟨TelemetryAttr.startAttr plan.id plan.name, (runPlanOut plan).trace,
      ⟨"orchestrator.run.exception", TelemetryAttr.exceptionAttr (normalizeThrown e)⟩,
      ?_, hmid, by simp⟩
    simp [Orchestrator.run, Orchestrator.runTry, telInfo, telError, hout, hi, he]

theorem orchRun_telemetry_order_witness :
    (∀ m a, recTel.info m a = none ∧ recTel.error m a = none) ∧
    (∃ (sattr : TelemetryAttr) (mid : List TraceItem) (lastEv : TelemetryEvent),
      (Orchestrator.run (some recTel) planOneOk).1 =
        TraceItem.tel ⟨"orchestrator.run.start", sattr⟩ :: (mid ++ [TraceItem.tel lastEv]) ∧
      (∀ x ∈ mid, ∃ j sid, x = TraceItem.stepRun j sid) ∧
      (lastEv.msg = "orchestrator.run.ok" ∨ lastEv.msg = "orchestrator.run.error" ∨
        lastEv.msg = "orchestrator.run.exception")) := by
  have htel : ∀ m a, recTel.info m a = none ∧ recTel.error m a = none :=
    fun m a => ⟨rfl, rfl⟩
  exact ⟨htel, orchRun_telemetry_order recTel planOneOk htel⟩
